import Mathlib

/-!
Verification of the session-orchestration core of the chess3-backend server
(`src/server.js`): player registry, mode-partitioned matchmaking queues, the
match state machine with its clock, and the settlement computation.

Shallow embedding conventions:
- Monetary amounts are rationals (the source uses JS numbers for currency).
- Timestamps and clock budgets are integers (milliseconds), `Date.now()` is
  passed explicitly as a `now` parameter to each handler.
- The chess.js library is the external Rules Oracle: it is modelled as an
  abstract function `Oracle` from a position (FEN string) and a candidate move
  to `none` (illegal) or the resulting position with terminal flags.
- The relational store is modelled as an in-memory balance table plus a log of
  the write statements issued (`DbOp`), newest first.
- Socket emissions are collected in a `List Emit`.
-/

namespace Chess3

/-- A side of the board ('white' / 'black' strings in the source). -/
inductive Side
  | white
  | black
  deriving DecidableEq, Repr

/-- `result.winner` in the source: 'white', 'black' or 'draw'. -/
inductive Winner
  | white
  | black
  | draw
  deriving DecidableEq, Repr

/-- `this.result = { winner, reason }` in class `Match`. -/
structure GameRes where
  winner : Winner
  reason : String
  deriving DecidableEq, Repr

/-- `this.status` of a `Match`: 'active' or 'finished'. -/
inductive MStatus
  | active
  | finished
  deriving DecidableEq, Repr

/-- `this.clock = { whiteMs, blackMs, lastMoveTs }`. -/
structure Clock where
  whiteMs : ℤ
  blackMs : ℤ
  lastMoveTs : ℤ
  deriving DecidableEq, Repr

/-- The `{ from, to, promotion }` payload handed to `chess.move`. -/
structure MoveInput where
  src : String
  dst : String
  promotion : Option String
  deriving DecidableEq, Repr

/-- What the external rules engine (chess.js) reports after a legal move:
the new FEN, whose turn it is (`chess.turn() === 'w'`), and terminal flags. -/
structure OracleRes where
  fen : String
  turnW : Bool
  isCheckmate : Bool
  isDraw : Bool
  deriving DecidableEq, Repr

/-- The external Rules Oracle: `chess.move` returning `null` for an illegal
move, otherwise the post-move observations used by `Match.makeMove`. -/
abbrev Oracle : Type := String → MoveInput → Option OracleRes

/-- `new Chess().fen()`: the standard initial position. -/
def startFen : String := "rnbqkbnr/pppppppp/8/8/8/8/PPPPPPPP/RNBQKBNR w KQkq - 0 1"

/-- Class `Match` from src/server.js (game session). `fen` stands for both the
cached `this.fen` and the position held by the `this.chess` object. -/
structure Match where
  matchId : String
  whiteId : String
  blackId : String
  whiteDbId : Option String
  blackDbId : Option String
  gameMode : String
  entryFee : ℚ
  fen : String
  turn : Side
  status : MStatus
  clock : Clock
  result : Option GameRes
  deriving DecidableEq, Repr

/-- Per-mode starting budget in ms: 60000 default (BULLET), 180000 BLITZ,
300000 RAPID, 600000 CLASSICAL (constructor of `Match`). -/
def modeTimeMs (gameMode : String) : ℤ :=
  if gameMode = "BLITZ" then 180000
  else if gameMode = "RAPID" then 300000
  else if gameMode = "CLASSICAL" then 600000
  else 60000

/-- The `Match` constructor. -/
def mkMatch (matchId whitePlayerId blackPlayerId : String)
    (whiteDbId blackDbId : Option String) (gameMode : String) (entryFee : ℚ)
    (now : ℤ) : Match :=
  let t := modeTimeMs gameMode
  { matchId := matchId
    whiteId := whitePlayerId
    blackId := blackPlayerId
    whiteDbId := whiteDbId
    blackDbId := blackDbId
    gameMode := gameMode
    entryFee := entryFee
    fen := startFen
    turn := Side.white
    status := MStatus.active
    clock := { whiteMs := t, blackMs := t, lastMoveTs := now }
    result := none }

/-- `Match.updateClock`: charge `now - lastMoveTs` against the side currently
stored in `this.turn`, clamp at zero, then finish the game on an exhausted
budget. Returns the updated match and the boolean the source returns. -/
def Match.updateClock (m : Match) (now : ℤ) : Match × Bool :=
  let elapsed := now - m.clock.lastMoveTs
  let c : Clock :=
    if m.turn = Side.white then
      { m.clock with whiteMs := max 0 (m.clock.whiteMs - elapsed), lastMoveTs := now }
    else
      { m.clock with blackMs := max 0 (m.clock.blackMs - elapsed), lastMoveTs := now }
  let m1 : Match := { m with clock := c }
  if m1.clock.whiteMs = 0 then
    ({ m1 with status := MStatus.finished,
               result := some { winner := Winner.black, reason := "timeout" } }, true)
  else if m1.clock.blackMs = 0 then
    ({ m1 with status := MStatus.finished,
               result := some { winner := Winner.white, reason := "timeout" } }, true)
  else (m1, false)

/-- `Match.makeMove`: try the move on the oracle; on failure return
`{ success: false, reason: 'Invalid move' }` with the match untouched; on
success update `fen`, set `turn` from the post-move oracle state, run
`updateClock`, then consult the terminal flags. Returns the updated match and
the success flag. -/
def Match.makeMove (oracle : Oracle) (m : Match) (mv : MoveInput) (now : ℤ) :
    Match × Bool :=
  match oracle m.fen mv with
  | none => (m, false)
  | some r =>
    let m1 := { m with fen := r.fen,
                       turn := if r.turnW then Side.white else Side.black }
    let m2 := (m1.updateClock now).1
    let m3 :=
      if r.isCheckmate then
        { m2 with result := some { winner := if r.turnW then Winner.black else Winner.white,
                                   reason := "checkmate" },
                  status := MStatus.finished }
      else if r.isDraw then
        { m2 with result := some { winner := Winner.draw, reason := "draw" },
                  status := MStatus.finished }
      else m2
    (m3, true)

/-- Class `Player`. -/
structure Player where
  playerId : String
  socketId : String
  dbId : Option String
  username : String
  color : Option Side
  gameMode : Option String
  entryFee : Option ℚ
  deriving DecidableEq, Repr

/-- A write statement issued against the persistent store. Descriptions are
dropped; user ids are `Option String` because several statements are issued
with a possibly-null id. -/
inductive DbOp
  | walletAdd (userId : Option String) (amount : ℚ)
  | walletSub (userId : Option String) (amount : ℚ)
  | txInsert (userId : Option String) (amount : ℚ) (txType : String)
  | drawsInc (userId : Option String)
  | winsInc (userId : Option String)
  | lossesInc (userId : Option String)
  | matchEnd (matchId : String) (winnerId : Option String) (reason : String)
  | companyEarning (matchId : String) (amount : ℚ)
  | matchInsert (matchId : String) (whiteDbId blackDbId : Option String)
      (entryFee stakeAmount : ℚ)
  deriving DecidableEq, Repr

/-- The persistent store: wallet balances plus the log of issued write
statements, newest first. -/
structure Db where
  balances : List (String × ℚ)
  ops : List DbOp
  deriving DecidableEq, Repr

/-- `UPDATE users SET wallet_balance = ... WHERE id = $uid` (no row matched
when the id is null or unknown). -/
def balApply (bs : List (String × ℚ)) (uid : Option String) (f : ℚ → ℚ) :
    List (String × ℚ) :=
  match uid with
  | none => bs
  | some u => bs.map (fun kv => if kv.1 = u then (kv.1, f kv.2) else kv)

/-- Apply one write statement: log it and update balances where relevant. -/
def Db.apply (db : Db) (op : DbOp) : Db :=
  match op with
  | DbOp.walletAdd u a => { balances := balApply db.balances u (· + a), ops := op :: db.ops }
  | DbOp.walletSub u a => { balances := balApply db.balances u (· - a), ops := op :: db.ops }
  | _ => { db with ops := op :: db.ops }

/-- Apply a sequence of write statements in execution order. -/
def Db.applyAll (db : Db) (ops : List DbOp) : Db :=
  ops.foldl Db.apply db

/-- Events the server pushes to a specific socket. -/
inductive Emit
  | insufficientBalance (socketId : String) (needAmt haveAmt : ℚ)
  | illegalMove (socketId : String) (reason : String)
  | moveResult (socketId : String) (fen : String) (turn : Side) (whiteMs blackMs : ℤ)
  | gameOver (socketId : String) (winner : Winner) (reason : String)
      (winnings : ℚ) (totalReturn : Option ℚ)
  | matchFound (socketId : String) (matchId : String) (color : Side)
  | forceDisconnect (socketId : String)
  deriving DecidableEq, Repr

/-- The `players` map (socketId → Player) as an association list in insertion
order, matching JS `Map` iteration order. -/
abbrev PlayersMap : Type := List (String × Player)

/-- `Array.from(players.values()).find(p => p.playerId === pid)`. -/
def findByPid (ps : PlayersMap) (pid : String) : Option Player :=
  (ps.find? (fun kv => kv.2.playerId == pid)).map (·.2)

/-- `handleGameOver`: the settlement computation, returning the list of write
statements in execution order and the `game_over` pushes. The `none` result
branch is unreachable from the handlers (they only call this with the outcome
set). -/
def handleGameOver (ps : PlayersMap) (m : Match) : List DbOp × List Emit :=
  match m.result with
  | none => ([], [])
  | some r =>
    if r.winner = Winner.draw then
      if r.reason = "draw" then
        -- `const fee = match.entryFee || 10.0`
        let fee := if m.entryFee = 0 then 10 else m.entryFee
        let opsW :=
          match m.whiteDbId with
          | some w => [DbOp.walletAdd (some w) fee,
                       DbOp.txInsert (some w) fee "refund",
                       DbOp.drawsInc (some w)]
          | none => []
        let opsB :=
          match m.blackDbId with
          | some b => [DbOp.walletAdd (some b) fee,
                       DbOp.txInsert (some b) fee "refund",
                       DbOp.drawsInc (some b)]
          | none => []
        (opsW ++ opsB ++ [DbOp.matchEnd m.matchId none "draw"], [])
      else ([], [])
    else
      let winnerId := if r.winner = Winner.white then m.whiteDbId else m.blackDbId
      let loserId := if r.winner = Winner.white then m.blackDbId else m.whiteDbId
      let entryFee := m.entryFee
      let winnings := entryFee * (7 / 10)
      let companyCut := entryFee * (3 / 10)
      let totalReturn := entryFee + winnings
      let ops := [DbOp.winsInc winnerId,
                  DbOp.lossesInc loserId,
                  DbOp.matchEnd m.matchId winnerId r.reason,
                  DbOp.walletAdd winnerId totalReturn,
                  DbOp.txInsert winnerId totalReturn "winnings",
                  DbOp.companyEarning m.matchId companyCut]
      let winnerPid := if r.winner = Winner.white then m.whiteId else m.blackId
      let loserPid := if r.winner = Winner.white then m.blackId else m.whiteId
      let emW :=
        match findByPid ps winnerPid with
        | some wp => [Emit.gameOver wp.socketId r.winner r.reason winnings (some totalReturn)]
        | none => []
      let emL :=
        match findByPid ps loserPid with
        | some lp => [Emit.gameOver lp.socketId r.winner r.reason 0 none]
        | none => []
      (ops, emW ++ emL)

/-- The per-mode queues object: mode name → list of waiting `playerId`s. -/
abbrev Queues : Type := List (String × List String)

/-- `queues[mode]` (empty when the key is absent). -/
def qlookup (qs : Queues) (mode : String) : List String :=
  (qs.lookup mode).getD []

/-- Replace the value stored at the first entry with the given key, appending
a new entry at the end when the key is absent (`queues[mode] = v`). -/
def qsetFirst : Queues → String → List String → Queues
  | [], mode, v => [(mode, v)]
  | (k, q) :: rest, mode, v =>
    if k = mode then (mode, v) :: rest else (k, q) :: qsetFirst rest mode v

/-- `queues[mode].push(pid)` (creating the queue when absent). -/
def qpush (qs : Queues) (mode : String) (pid : String) : Queues :=
  qsetFirst qs mode (qlookup qs mode ++ [pid])

/-- The splice-one-occurrence-per-queue loop used by `join_queue`,
`register_player` and `disconnect`: in every mode queue, remove the first
occurrence of `pid` when present. -/
def eraseAllQ (qs : Queues) (pid : String) : Queues :=
  qs.map (fun kv => (kv.1, kv.2.erase pid))

/-- Total number of occurrences of `pid` across all mode queues. -/
def qTotal (qs : Queues) (pid : String) : ℕ :=
  qs.foldr (fun kv n => kv.2.count pid + n) 0

/-- `players.set(k, v)`: update the entry in place when the key exists,
append it otherwise. -/
def psetFirst : PlayersMap → String → Player → PlayersMap
  | [], k, v => [(k, v)]
  | (k', v') :: rest, k, v =>
    if k' = k then (k, v) :: rest else (k', v') :: psetFirst rest k v

/-- The `matches` map (matchId → Match), insertion order. -/
abbrev MatchesMap : Type := List (String × Match)

/-- Replace the value stored under an existing match id. -/
def msUpdate : MatchesMap → String → Match → MatchesMap
  | [], _, _ => []
  | (k, v) :: rest, mid, m =>
    if k = mid then (mid, m) :: rest else (k, v) :: msUpdate rest mid m

/-- `matches.delete(mid)`. -/
def msDelete (ms : MatchesMap) (mid : String) : MatchesMap :=
  ms.filter (fun kv => kv.1 ≠ mid)

/-- Result of one `matchPlayers` run: updated players and queues, the created
match (at most one), the write statements issued, and the pushes. -/
structure MPRes where
  ps : PlayersMap
  qs : Queues
  nm : List (String × Match)
  ops : List DbOp
  em : List Emit

/-- `matchPlayers(mode, fee)`: pair the two oldest entries of the mode queue,
skipping stale entries and self-matches by recursion (realised here with a
fuel argument: each recursive call in the source removes one queue entry
first, so fuel = queue length suffices). `coin` is the `Math.random() < 0.5`
draw, `mid` the fresh match uuid, `now` the clock-start timestamp. -/
def matchPlayers : ℕ → PlayersMap → Queues → String → ℚ → Bool → ℤ → String → MPRes
  | 0, ps, qs, _, _, _, _, _ => ⟨ps, qs, [], [], []⟩
  | Nat.succ fuel, ps, qs, mode, fee, coin, now, mid =>
    match qlookup qs mode with
    | [] => ⟨ps, qs, [], [], []⟩
    | [_] => ⟨ps, qs, [], [], []⟩
    | p1Id :: p2Id :: rest =>
      match findByPid ps p1Id with
      | none => matchPlayers fuel ps (qsetFirst qs mode (p2Id :: rest)) mode fee coin now mid
      | some p1 =>
        match findByPid ps p2Id with
        | none => matchPlayers fuel ps (qsetFirst qs mode (p1Id :: rest)) mode fee coin now mid
        | some p2 =>
          if p1.dbId.isSome ∧ p2.dbId.isSome ∧ p1.dbId = p2.dbId then
            matchPlayers fuel ps (qsetFirst qs mode (p1Id :: rest)) mode fee coin now mid
          else
            let qs1 := qsetFirst qs mode rest
            let debits :=
              (match p1.dbId with
               | some u => [DbOp.walletSub (some u) fee]
               | none => []) ++
              (match p2.dbId with
               | some u => [DbOp.walletSub (some u) fee]
               | none => [])
            let feeTxs :=
              (match p1.dbId with
               | some u => [DbOp.txInsert (some u) fee "entry_fee"]
               | none => []) ++
              (match p2.dbId with
               | some u => [DbOp.txInsert (some u) fee "entry_fee"]
               | none => [])
            let whiteDbId := if coin then p1.dbId else p2.dbId
            let blackDbId := if coin then p2.dbId else p1.dbId
            let m := mkMatch mid (if coin then p1Id else p2Id)
              (if coin then p2Id else p1Id) whiteDbId blackDbId mode fee now
            let ops := debits ++ feeTxs ++
              [DbOp.matchInsert mid whiteDbId blackDbId fee fee]
            let p1c : Player := { p1 with color := some (if coin then Side.white else Side.black) }
            let p2c : Player := { p2 with color := some (if coin then Side.black else Side.white) }
            let ps1 := psetFirst (psetFirst ps p1.socketId p1c) p2.socketId p2c
            ⟨ps1, qs1, [(mid, m)],
              ops,
              [Emit.matchFound p1c.socketId mid (if coin then Side.white else Side.black),
               Emit.matchFound p2c.socketId mid (if coin then Side.black else Side.white)]⟩

/-- The whole in-memory server state touched by the socket handlers. -/
structure ServerState where
  players : PlayersMap
  liveMatches : MatchesMap
  queues : Queues
  db : Db
  deriving DecidableEq

/-- The `join_queue` payload `{ userId, gameMode, entryFee, username }`;
`entryFee` is `none` when `parseFloat` yields NaN. -/
structure JoinData where
  userId : Option String
  gameMode : Option String
  entryFee : Option ℚ
  username : Option String
  deriving DecidableEq, Repr

/-- `data.gameMode || 'BULLET'`. -/
def modeOf (g : Option String) : String :=
  match g with
  | none => "BULLET"
  | some s => if s = "" then "BULLET" else s

/-- `parseFloat(data.entryFee) || 10.0`. -/
def feeOf (f : Option ℚ) : ℚ :=
  match f with
  | none => 10
  | some x => if x = 0 then 10 else x

/-- The `register_player` handler: evict every entry of a different socket
holding the same `dbId` (removing its playerId from all queues, deleting its
registry entry and telling its client to stop), then register a fresh
`Player` for this socket. -/
def registerPlayer (st : ServerState) (sock : String) (userId : Option String)
    (freshPid : String) : ServerState × List Emit :=
  let evicted := st.players.filter (fun kv => kv.2.dbId == userId && kv.1 != sock)
  let qs := evicted.foldl (fun qs kv => eraseAllQ qs kv.2.playerId) st.queues
  let ps := st.players.filter (fun kv => !(kv.2.dbId == userId && kv.1 != sock))
  let newP : Player :=
    { playerId := freshPid, socketId := sock, dbId := userId, username := "Guest",
      color := none, gameMode := none, entryFee := none }
  ({ st with players := psetFirst ps sock newP, queues := qs },
   evicted.map (fun kv => Emit.forceDisconnect kv.1))

/-- The `join_queue` handler: auto-register an unknown socket, check the
wallet balance for participants with a persistent identity, dedupe the player
from every queue, push it onto the target mode queue, and run matchmaking
when the queue holds at least two entries. -/
def joinQueue (st : ServerState) (sock : String) (d : JoinData)
    (freshPid : String) (coin : Bool) (now : ℤ) (mid : String) :
    ServerState × List Emit :=
  let ps :=
    if (st.players.lookup sock).isSome then st.players
    else psetFirst st.players sock
      { playerId := freshPid, socketId := sock, dbId := d.userId,
        username := d.username.getD "Guest", color := none,
        gameMode := none, entryFee := none }
  match ps.lookup sock with
  | none => ({ st with players := ps }, [])
  | some player =>
    let mode := modeOf d.gameMode
    let fee := feeOf d.entryFee
    let lowBalance : Option ℚ :=
      match player.dbId with
      | some uid =>
        match st.db.balances.lookup uid with
        | some b => if b < fee then some b else none
        | none => none
      | none => none
    match lowBalance with
    | some b => ({ st with players := ps }, [Emit.insufficientBalance sock fee b])
    | none =>
      let qs := eraseAllQ st.queues player.playerId
      let qs := qpush qs mode player.playerId
      let player1 : Player := { player with gameMode := some mode, entryFee := some fee }
      let ps := psetFirst ps sock player1
      if 2 ≤ (qlookup qs mode).length then
        let r := matchPlayers (qlookup qs mode).length ps qs mode fee coin now mid
        ({ players := r.ps, liveMatches := st.liveMatches ++ r.nm, queues := r.qs,
           db := st.db.applyAll r.ops }, r.em)
      else ({ st with players := ps, queues := qs }, [])

/-- The `make_move` handler, run-to-completion view: silently ignore an
unknown match id; report `illegal_move` when the oracle rejects the move;
otherwise store the mutated match, broadcast `move_result` to both sides'
live connections, and — when the match just finished — run settlement and
drop the match from the live index. This summarises the handler's total
effect when no other event is interleaved with it; the handler is however
`async` and, on the finishing path, suspends at the `await pool.query`
points inside `handleGameOver` before `matches.delete(matchId)` runs — the
state another event sees at that suspension, and the suspended handler's
resumption, are modelled by `makeMoveSuspended` and `makeMoveResume` below. -/
def makeMoveHandler (oracle : Oracle) (st : ServerState) (sock : String)
    (mid : String) (mv : MoveInput) (now : ℤ) : ServerState × List Emit :=
  match st.liveMatches.lookup mid with
  | none => (st, [])
  | some m =>
    let r := m.makeMove oracle mv now
    if r.2 = false then (st, [Emit.illegalMove sock "Invalid move"])
    else
      let m1 := r.1
      let moveEmits :=
        (match findByPid st.players m1.whiteId with
         | some wp => [Emit.moveResult wp.socketId m1.fen m1.turn m1.clock.whiteMs m1.clock.blackMs]
         | none => []) ++
        (match findByPid st.players m1.blackId with
         | some bp => [Emit.moveResult bp.socketId m1.fen m1.turn m1.clock.whiteMs m1.clock.blackMs]
         | none => [])
      if m1.status = MStatus.finished then
        let go := handleGameOver st.players m1
        ({ st with liveMatches := msDelete (msUpdate st.liveMatches mid m1) mid,
                   db := st.db.applyAll go.1 },
         moveEmits ++ go.2)
      else
        ({ st with liveMatches := msUpdate st.liveMatches mid m1 }, moveEmits)

/-- The `disconnect` handler: forget the socket and remove its playerId from
every mode queue. -/
def disconnectHandler (st : ServerState) (sock : String) : ServerState × List Emit :=
  match st.players.lookup sock with
  | none => (st, [])
  | some p =>
    ({ st with players := st.players.filter (fun kv => kv.1 ≠ sock),
               queues := eraseAllQ st.queues p.playerId }, [])

/-- The inbound socket events (`register_player`, `join_queue`, `make_move`,
disconnect), carrying the fresh uuids, the random color draw and the wall
clock reading that the corresponding handler consumes. -/
inductive Ev
  | register (sock : String) (userId : Option String) (freshPid : String)
  | join (sock : String) (d : JoinData) (freshPid : String) (coin : Bool)
      (now : ℤ) (mid : String)
  | move (sock : String) (mid : String) (mv : MoveInput) (now : ℤ)
  | disc (sock : String)

/-- Process one inbound event to completion (single-threaded scheduling). -/
def step (oracle : Oracle) (st : ServerState) : Ev → ServerState × List Emit
  | Ev.register sock userId freshPid => registerPlayer st sock userId freshPid
  | Ev.join sock d freshPid coin now mid => joinQueue st sock d freshPid coin now mid
  | Ev.move sock mid mv now => makeMoveHandler oracle st sock mid mv now
  | Ev.disc sock => disconnectHandler st sock

/-- Number of match-completion statements issued for a given match id:
settlement runs exactly one of these per execution. -/
def isSettleOp (mid : String) (op : DbOp) : Bool :=
  match op with
  | DbOp.matchEnd mid' _ _ => mid' == mid
  | _ => false

/-- Count the match-completion statements for `mid` in a statement list. -/
def opsSettleCount (ops : List DbOp) (mid : String) : ℕ :=
  ops.countP (isSettleOp mid)

def settleCount (db : Db) (mid : String) : ℕ :=
  opsSettleCount db.ops mid

/-- The server's initial in-memory state: the five mode queues empty, no
players, no matches, and the given external wallet table. -/
def initState (bs : List (String × ℚ)) : ServerState :=
  { players := []
    liveMatches := []
    queues := [("BULLET", []), ("BLITZ", []), ("RAPID", []), ("CLASSICAL", []),
               ("TOURNAMENT", [])]
    db := { balances := bs, ops := [] } }

/-- Freshness of the uuid supplied with a `join_queue` event: a fresh match
id is not live and has never been settled. -/
def FreshOk (st : ServerState) : Ev → Prop
  | Ev.join _ _ _ _ _ mid => st.liveMatches.lookup mid = none ∧ settleCount st.db mid = 0
  | _ => True

/-- States reachable from a fresh server start by processing inbound events
(uuids supplied to matchmaking are fresh). -/
inductive Reachable (oracle : Oracle) (bs : List (String × ℚ)) : ServerState → Prop
  | init : Reachable oracle bs (initState bs)
  | next {st : ServerState} (e : Ev) :
      Reachable oracle bs st → FreshOk st e →
      Reachable oracle bs (step oracle st e).1


/-! ### Invariant statements and concrete fixtures -/

/-- The single-queue-membership bound: every playerId occurs at most once
across all mode queues. -/
def queueInv (st : ServerState) : Prop :=
  ∀ pid, qTotal st.queues pid ≤ 1

/-- What a successful pairing must have written: every debit and every
entry-fee transaction carries exactly the fee the pairing was invoked with,
the debited accounts are the two sides' accounts, the stored match and the
match record carry that same fee, and each identified side was debited. -/
def MPGood (fee : ℚ) (mid : String) (r : MPRes) : Prop :=
  ∀ m, r.nm = [(mid, m)] →
    m.entryFee = fee ∧
    (∀ u a, DbOp.walletSub u a ∈ r.ops →
      a = fee ∧ (u = m.whiteDbId ∨ u = m.blackDbId)) ∧
    (∀ u a ty, DbOp.txInsert u a ty ∈ r.ops → ty = "entry_fee" ∧ a = fee) ∧
    DbOp.matchInsert mid m.whiteDbId m.blackDbId fee fee ∈ r.ops ∧
    (m.whiteDbId.isSome → DbOp.walletSub m.whiteDbId fee ∈ r.ops) ∧
    (m.blackDbId.isSome → DbOp.walletSub m.blackDbId fee ∈ r.ops)

/-- Predicates singling out statement kinds in the write log. -/
def isWalletAddOp : DbOp → Bool
  | DbOp.walletAdd _ _ => true
  | _ => false

def isWalletAddTo (u : Option String) : DbOp → Bool
  | DbOp.walletAdd v _ => v == u
  | _ => false

def isWinningsTx : DbOp → Bool
  | DbOp.txInsert _ _ ty => ty == "winnings"
  | _ => false

def isRefundTxTo (u : Option String) : DbOp → Bool
  | DbOp.txInsert v _ ty => v == u && ty == "refund"
  | _ => false

def isCompanyOp : DbOp → Bool
  | DbOp.companyEarning _ _ => true
  | _ => false

/-- An oracle that rejects every move. -/
def oracle0 : Oracle := fun _ _ => none

/-- The pawn move e2-e4. -/
def mv0 : MoveInput := { src := "e2", dst := "e4", promotion := none }

/-- An oracle defined at exactly one input: e2-e4 from the initial position
is legal, yields position "FEN2" with black to move, and is not terminal. -/
def oracleA : Oracle := fun fen mv =>
  if fen = startFen ∧ mv = mv0 then
    some { fen := "FEN2", turnW := false, isCheckmate := false, isDraw := false }
  else none

/-- A white participant fixture on socket s1 with account u1. -/
def pW : Player :=
  { playerId := "p1", socketId := "s1", dbId := some "u1", username := "Guest",
    color := some Side.white, gameMode := some "BLITZ", entryFee := some 10 }

/-- A black participant fixture on socket s2 with account u2. -/
def pB : Player :=
  { playerId := "p2", socketId := "s2", dbId := some "u2", username := "Guest",
    color := some Side.black, gameMode := some "BLITZ", entryFee := some 10 }

/-- An active BLITZ match between `pW` and `pB`, stake 10, clock from 0. -/
def mA : Match := mkMatch "m1" "p1" "p2" (some "u1") (some "u2") "BLITZ" 10 0

/-- A server state holding `mA` live with both participants registered. -/
def stA : ServerState :=
  { players := [("s1", pW), ("s2", pB)]
    liveMatches := [("m1", mA)]
    queues := [("BULLET", []), ("BLITZ", []), ("RAPID", []), ("CLASSICAL", []),
               ("TOURNAMENT", [])]
    db := { balances := [("u1", 90), ("u2", 90)], ops := [] } }

/-- `mA` after finishing in a draw. -/
def mD : Match :=
  { mA with status := MStatus.finished,
            result := some { winner := Winner.draw, reason := "draw" } }

/-- `mA` after white won by checkmate. -/
def mC : Match :=
  { mA with status := MStatus.finished,
            result := some { winner := Winner.white, reason := "checkmate" } }

/-- Queue-join payloads used by the concrete runs. -/
def jd1 : JoinData :=
  { userId := some "u1", gameMode := some "BULLET", entryFee := some 10,
    username := none }

def jd2 : JoinData :=
  { userId := some "u2", gameMode := some "BULLET", entryFee := some 10,
    username := none }

def jd9 : JoinData :=
  { userId := some "u9", gameMode := some "BLITZ", entryFee := some 10,
    username := none }

def jdP1 : JoinData :=
  { userId := some "u1", gameMode := some "BULLET", entryFee := some 5,
    username := none }

def jdP2 : JoinData :=
  { userId := some "u2", gameMode := some "BULLET", entryFee := some 20,
    username := none }

/-- The participant record `join_queue` stores for `jd1` on socket s1. -/
def pJ : Player :=
  { playerId := "p1", socketId := "s1", dbId := some "u1", username := "Guest",
    color := none, gameMode := some "BULLET", entryFee := some 10 }

/-- One queued participant: the state after s1 joins BULLET from a fresh
start. -/
def stQ : ServerState :=
  (step oracle0 (initState []) (Ev.join "s1" jd1 "p1" true 0 "mX")).1

/-- A live BULLET match paired at time 0 between u1 and u2, reached from a
fresh start by two queue joins. -/
def stT : ServerState :=
  (step oracle0 stQ (Ev.join "s2" jd2 "p2" true 0 "m1")).1

/-- The scenario pair for the fee discrepancy: u1 (balance 6) joins with
stake 5, then u2 (balance 100) joins with stake 20, triggering the pairing. -/
def stP : ServerState :=
  (step oracle0 (initState [("u1", 6), ("u2", 100)])
    (Ev.join "s1" jdP1 "p1" true 0 "mX")).1

def stP2 : ServerState :=
  (step oracle0 stP (Ev.join "s2" jdP2 "p2" true 100 "m1")).1

/-- Two waiting participants with different requested stakes. -/
def pJ5 : Player :=
  { playerId := "p1", socketId := "s1", dbId := some "u1", username := "Guest",
    color := none, gameMode := some "BULLET", entryFee := some 5 }

def pJ20 : Player :=
  { playerId := "p2", socketId := "s2", dbId := some "u2", username := "Guest",
    color := none, gameMode := some "BULLET", entryFee := some 20 }

def psC : PlayersMap := [("s1", pJ5), ("s2", pJ20)]

def qsC : Queues := [("BULLET", ["p1", "p2"])]

/-! ### Queue-counting lemmas -/

theorem qTotal_nil (pid : String) : qTotal [] pid = 0 := rfl

theorem qTotal_cons (kv : String × List String) (qs : Queues) (pid : String) :
    qTotal (kv :: qs) pid = kv.2.count pid + qTotal qs pid := rfl

/-- Erasing some pid from every queue never increases any occurrence count. -/
theorem qTotal_eraseAllQ_le (qs : Queues) (pid pid' : String) :
    qTotal (eraseAllQ qs pid') pid ≤ qTotal qs pid := by
  induction qs with
  | nil => simp [eraseAllQ, qTotal_nil]
  | cons kv rest ih =>
    simp only [eraseAllQ, List.map_cons, qTotal_cons]
    exact Nat.add_le_add ((kv.2.erase_sublist pid').count_le pid) ih

/-- If pid occurs at most once across all queues, erasing it from every queue
removes it completely. -/
theorem qTotal_eraseAllQ_self (qs : Queues) (pid : String)
    (h : qTotal qs pid ≤ 1) : qTotal (eraseAllQ qs pid) pid = 0 := by
  induction qs with
  | nil => simp [eraseAllQ, qTotal_nil]
  | cons kv rest ih =>
    simp only [eraseAllQ, List.map_cons, qTotal_cons] at *
    by_cases hm : pid ∈ kv.2
    · have h1 : 1 ≤ kv.2.count pid := List.one_le_count_iff.mpr hm
      have hr : qTotal rest pid = 0 := by omega
      have hc : kv.2.count pid = 1 := by omega
      have : (kv.2.erase pid).count pid = kv.2.count pid - 1 :=
        List.count_erase_self pid kv.2
      have hrest : qTotal (eraseAllQ rest pid) pid ≤ qTotal rest pid :=
        qTotal_eraseAllQ_le rest pid pid
      omega
    · have hc : kv.2.count pid = 0 := List.count_eq_zero.mpr hm
      have : (kv.2.erase pid).count pid ≤ kv.2.count pid :=
        (kv.2.erase_sublist pid).count_le pid
      have := ih (by omega)
      omega

/-- Replacing the first entry of a key exchanges the counted occurrences of
that entry's queue for those of the new value. -/
theorem qTotal_qsetFirst (qs : Queues) (mode : String) (v : List String)
    (pid : String) :
    qTotal (qsetFirst qs mode v) pid + (qlookup qs mode).count pid
      = qTotal qs pid + v.count pid := by
  induction qs with
  | nil => simp [qsetFirst, qlookup, qTotal_nil, qTotal_cons]
  | cons kv rest ih =>
    obtain ⟨k, q⟩ := kv
    by_cases hk : k = mode
    · subst hk
      simp [qsetFirst, qlookup, qTotal_cons, List.lookup_cons]
      omega
    · have hbeq : (mode == k) = false := by
        rw [beq_eq_false_iff_ne]
        exact fun hmk => hk hmk.symm
      simp only [qsetFirst, if_neg hk, qTotal_cons, qlookup, List.lookup_cons, hbeq]
      have := ih
      simp only [qlookup] at this
      omega

/-- Pushing pid onto a queue adds exactly one occurrence of pid. -/
theorem qTotal_qpush_self (qs : Queues) (mode pid : String) :
    qTotal (qpush qs mode pid) pid = qTotal qs pid + 1 := by
  have h := qTotal_qsetFirst qs mode (qlookup qs mode ++ [pid]) pid
  simp only [qpush] at *
  simp [List.count_append] at h
  omega

/-- Pushing pid onto a queue leaves other ids' counts unchanged. -/
theorem qTotal_qpush_other (qs : Queues) (mode pid pid' : String)
    (h : pid' ≠ pid) : qTotal (qpush qs mode pid) pid' = qTotal qs pid' := by
  have hq := qTotal_qsetFirst qs mode (qlookup qs mode ++ [pid]) pid'
  simp only [qpush] at *
  have : ([pid].count pid') = 0 := by
    simp [List.count_singleton']
    intro hc
    exact h hc.symm
  simp [List.count_append, this] at hq
  omega

/-- Replacing a mode's queue by one with no more occurrences of pid never
increases pid's total count. -/
theorem qTotal_qsetFirst_le (qs : Queues) (mode : String) (v : List String)
    (pid : String) (h : v.count pid ≤ (qlookup qs mode).count pid) :
    qTotal (qsetFirst qs mode v) pid ≤ qTotal qs pid := by
  have := qTotal_qsetFirst qs mode v pid
  omega

/-- Matchmaking only ever removes entries from queues. -/
theorem matchPlayers_qTotal_le (fuel : ℕ) :
    ∀ (ps : PlayersMap) (qs : Queues) (mode : String) (fee : ℚ)
      (coin : Bool) (now : ℤ) (mid : String) (pid : String),
    qTotal (matchPlayers fuel ps qs mode fee coin now mid).qs pid ≤ qTotal qs pid := by
  induction fuel with
  | zero => intro ps qs mode fee coin now mid pid; exact le_refl _
  | succ fuel ih =>
    intro ps qs mode fee coin now mid pid
    unfold matchPlayers
    split
    · exact le_refl _
    · exact le_refl _
    · rename_i p1Id p2Id rest hq
      split
      · refine le_trans (ih ..) (qTotal_qsetFirst_le _ _ _ _ ?_)
        rw [hq]
        simp [List.count_cons]
      · rename_i p1 hp1
        split
        · refine le_trans (ih ..) (qTotal_qsetFirst_le _ _ _ _ ?_)
          rw [hq]
          simp [List.count_cons]
        · rename_i p2 hp2
          split
          · refine le_trans (ih ..) (qTotal_qsetFirst_le _ _ _ _ ?_)
            rw [hq]
            simp [List.count_cons]
          · refine qTotal_qsetFirst_le _ _ _ _ ?_
            rw [hq]
            simp [List.count_cons]
            omega

/-- Folding queue-erasures over a list of players only removes entries. -/
theorem qTotal_foldl_erase_le (l : List (String × Player)) (qs : Queues)
    (pid : String) :
    qTotal (l.foldl (fun qs kv => eraseAllQ qs kv.2.playerId) qs) pid
      ≤ qTotal qs pid := by
  induction l generalizing qs with
  | nil => exact le_refl _
  | cons kv rest ih =>
    exact le_trans (ih _) (qTotal_eraseAllQ_le qs pid kv.2.playerId)

theorem registerPlayer_queueInv (st : ServerState) (sock : String)
    (userId : Option String) (freshPid : String) (h : queueInv st) :
    queueInv (registerPlayer st sock userId freshPid).1 := by
  intro pid
  unfold registerPlayer
  exact le_trans (qTotal_foldl_erase_le _ _ _) (h pid)

theorem joinQueue_queueInv (st : ServerState) (sock : String) (d : JoinData)
    (freshPid : String) (coin : Bool) (now : ℤ) (mid : String)
    (h : queueInv st) :
    queueInv (joinQueue st sock d freshPid coin now mid).1 := by
  intro pid
  unfold joinQueue
  dsimp only
  split
  · exact h pid
  · rename_i player hplayer
    split
    · exact h pid
    · split
      · refine le_trans (matchPlayers_qTotal_le ..) ?_
        by_cases hpid : pid = player.playerId
        · rw [hpid, qTotal_qpush_self, qTotal_eraseAllQ_self st.queues
            player.playerId (h player.playerId)]
        · rw [qTotal_qpush_other _ _ _ _ hpid]
          exact le_trans (qTotal_eraseAllQ_le ..) (h pid)
      · by_cases hpid : pid = player.playerId
        · rw [hpid, qTotal_qpush_self, qTotal_eraseAllQ_self st.queues
            player.playerId (h player.playerId)]
        · rw [qTotal_qpush_other _ _ _ _ hpid]
          exact le_trans (qTotal_eraseAllQ_le ..) (h pid)

theorem makeMoveHandler_queues (oracle : Oracle) (st : ServerState)
    (sock mid : String) (mv : MoveInput) (now : ℤ) :
    (makeMoveHandler oracle st sock mid mv now).1.queues = st.queues := by
  simp only [makeMoveHandler]
  split
  · rfl
  · split
    · rfl
    · split
      · rfl
      · rfl

theorem disconnectHandler_queueInv (st : ServerState) (sock : String)
    (h : queueInv st) : queueInv (disconnectHandler st sock).1 := by
  intro pid
  unfold disconnectHandler
  split
  · exact h pid
  · exact le_trans (qTotal_eraseAllQ_le ..) (h pid)

/-- Single-queue membership holds in every reachable state. -/
theorem reachable_queueInv {oracle : Oracle} {bs : List (String × ℚ)}
    {st : ServerState} (h : Reachable oracle bs st) : queueInv st := by
  induction h with
  | init => intro pid; exact Nat.zero_le 1
  | next e hr hf ih =>
    cases e with
    | register sock userId freshPid => exact registerPlayer_queueInv _ _ _ _ ih
    | join sock d freshPid coin now mid => exact joinQueue_queueInv _ _ _ _ _ _ _ ih
    | move sock mid mv now =>
      intro pid
      rw [show (step oracle _ (Ev.move sock mid mv now)).1.queues = _ from
        makeMoveHandler_queues ..]
      exact ih pid
    | disc sock => exact disconnectHandler_queueInv _ _ ih

/-! ### Settlement-once lemmas -/

theorem Db.apply_ops (db : Db) (op : DbOp) :
    (db.apply op).ops = op :: db.ops := by
  cases op <;> rfl

theorem settleCount_applyAll (db : Db) (ops : List DbOp) (mid : String) :
    settleCount (db.applyAll ops) mid
      = settleCount db mid + opsSettleCount ops mid := by
  induction ops generalizing db with
  | nil => simp [Db.applyAll, opsSettleCount]
  | cons op rest ih =>
    show settleCount (Db.applyAll (db.apply op) rest) mid = _
    rw [ih]
    simp only [settleCount, opsSettleCount, Db.apply_ops, List.countP_cons]
    omega

theorem opsSettleCount_append (l1 l2 : List DbOp) (mid : String) :
    opsSettleCount (l1 ++ l2) mid = opsSettleCount l1 mid + opsSettleCount l2 mid := by
  simp [opsSettleCount, List.countP_append]

/-- Matchmaking issues debits, entry-fee transactions and a match-record
insert, but never a match-completion statement. -/
theorem matchPlayers_settle (fuel : ℕ) :
    ∀ (ps : PlayersMap) (qs : Queues) (mode : String) (fee : ℚ)
      (coin : Bool) (now : ℤ) (mid : String) (mid' : String),
    opsSettleCount (matchPlayers fuel ps qs mode fee coin now mid).ops mid' = 0 := by
  induction fuel with
  | zero => intro ps qs mode fee coin now mid mid'; rfl
  | succ fuel ih =>
    intro ps qs mode fee coin now mid mid'
    unfold matchPlayers
    split
    · rfl
    · rfl
    · rename_i p1Id p2Id rest hq
      split
      · exact ih ..
      · rename_i p1 hp1
        split
        · exact ih ..
        · rename_i p2 hp2
          split
          · exact ih ..
          · cases hd1 : p1.dbId <;> cases hd2 : p2.dbId <;>
              simp [opsSettleCount, List.countP_append, List.countP_cons,
                isSettleOp, hd1, hd2]

/-- Settlement issues exactly one match-completion statement for its own
match when the outcome is set (and none for any other match id). -/
theorem handleGameOver_settle_le_one (ps : PlayersMap) (m : Match) (mid : String) :
    opsSettleCount (handleGameOver ps m).1 mid ≤ 1 := by
  unfold handleGameOver
  split
  · exact Nat.zero_le 1
  · rename_i r hr
    split
    · split
      · cases hw : m.whiteDbId <;> cases hb : m.blackDbId <;>
          simp [opsSettleCount, List.countP_append, List.countP_cons,
            isSettleOp, hw, hb] <;>
          split <;> simp
      · exact Nat.zero_le 1
    · simp [opsSettleCount, List.countP_cons, isSettleOp]
      split <;> simp

theorem handleGameOver_settle_other (ps : PlayersMap) (m : Match) (mid : String)
    (h : m.matchId ≠ mid) : opsSettleCount (handleGameOver ps m).1 mid = 0 := by
  have hbeq : (m.matchId == mid) = false := beq_eq_false_iff_ne.mpr h
  unfold handleGameOver
  split
  · rfl
  · rename_i r hr
    split
    · split
      · cases hw : m.whiteDbId <;> cases hb : m.blackDbId <;>
          simp [opsSettleCount, List.countP_append, List.countP_cons,
            isSettleOp, hw, hb, hbeq]
      · rfl
    · simp [opsSettleCount, List.countP_cons, isSettleOp, hbeq]

theorem lookup_append_none {β : Type} (l1 l2 : List (String × β)) (k : String)
    (h1 : l1.lookup k = none) : (l1 ++ l2).lookup k = l2.lookup k := by
  induction l1 with
  | nil => rfl
  | cons kv rest ih =>
    simp only [List.cons_append, List.lookup] at h1 ⊢
    cases hbeq : k == kv.1 with
    | true => rw [hbeq] at h1; exact absurd h1 (by simp)
    | false => rw [hbeq] at h1; exact ih h1

theorem msUpdate_lookup_none (ms : MatchesMap) (mid k : String) (m : Match)
    (h : ms.lookup k = none) : (msUpdate ms mid m).lookup k = none := by
  induction ms with
  | nil => rfl
  | cons kv rest ih =>
    obtain ⟨k', v'⟩ := kv
    simp only [List.lookup] at h
    cases hbeq : k == k' with
    | true => rw [hbeq] at h; exact absurd h (by simp)
    | false =>
      rw [hbeq] at h
      unfold msUpdate
      split
      · rename_i heq
        simp only [List.lookup]
        rw [show (k == mid) = false from heq ▸ hbeq]
        exact h
      · simp only [List.lookup]
        rw [hbeq]
        exact ih h

theorem msDelete_lookup_none (ms : MatchesMap) (mid k : String)
    (h : ms.lookup k = none) : (msDelete ms mid).lookup k = none := by
  induction ms with
  | nil => rfl
  | cons kv rest ih =>
    simp only [List.lookup] at h
    cases hbeq : k == kv.1 with
    | true => rw [hbeq] at h; exact absurd h (by simp)
    | false =>
      rw [hbeq] at h
      unfold msDelete
      simp only [List.filter]
      split
      · simp only [List.lookup]
        rw [hbeq]
        exact ih h
      · exact ih h

theorem msDelete_lookup_self (ms : MatchesMap) (mid : String) :
    (msDelete ms mid).lookup mid = none := by
  induction ms with
  | nil => rfl
  | cons kv rest ih =>
    unfold msDelete
    simp only [List.filter]
    split
    · rename_i hk
      simp only [decide_eq_true_eq] at hk
      simp only [List.lookup]
      rw [show (mid == kv.1) = false from by
        rw [beq_eq_false_iff_ne]
        exact fun hc => hk hc.symm]
      exact ih
    · exact ih

theorem msUpdate_lookup_some (ms : MatchesMap) (mid k : String) (m m' : Match)
    (h : (msUpdate ms mid m).lookup k = some m') :
    (k = mid ∧ m' = m) ∨ ms.lookup k = some m' := by
  induction ms with
  | nil => exact absurd h (by simp [msUpdate])
  | cons kv rest ih =>
    obtain ⟨k', v'⟩ := kv
    unfold msUpdate at h
    split at h
    · rename_i heq
      simp only [List.lookup] at h
      cases hk : k == mid with
      | true =>
        rw [hk] at h
        exact Or.inl ⟨beq_iff_eq.mp hk, (Option.some.inj h).symm⟩
      | false =>
        rw [hk] at h
        right
        simp only [List.lookup]
        rw [show (k == k') = false from heq ▸ hk]
        exact h
    · simp only [List.lookup] at h
      cases hk : k == k' with
      | true =>
        rw [hk] at h
        right
        simp only [List.lookup]
        rw [hk]
        exact h
      | false =>
        rw [hk] at h
        rcases ih h with h1 | h2
        · exact Or.inl h1
        · right
          simp only [List.lookup]
          rw [hk]
          exact h2

theorem lookup_append_some {β : Type} (l1 l2 : List (String × β)) (k : String)
    (v : β) (h : (l1 ++ l2).lookup k = some v) :
    l1.lookup k = some v ∨ (l1.lookup k = none ∧ l2.lookup k = some v) := by
  induction l1 with
  | nil => exact Or.inr ⟨rfl, h⟩
  | cons kv rest ih =>
    simp only [List.cons_append, List.lookup] at h ⊢
    cases hbeq : k == kv.1 with
    | true => rw [hbeq] at h; exact Or.inl h
    | false => rw [hbeq] at h; exact ih h

theorem msDelete_lookup_some (ms : MatchesMap) (mid k : String) (v : Match)
    (h : (msDelete ms mid).lookup k = some v) : ms.lookup k = some v := by
  induction ms with
  | nil => exact absurd h (by simp [msDelete])
  | cons kv rest ih =>
    unfold msDelete at h
    simp only [List.filter] at h
    split at h
    · simp only [List.lookup] at h ⊢
      cases hbeq : k == kv.1 with
      | true => rw [hbeq] at h; exact h
      | false => rw [hbeq] at h; exact ih h
    · rename_i hk
      rw [decide_eq_false_iff_not, not_not] at hk
      simp only [List.lookup]
      rw [show (k == kv.1) = false from by
        rw [beq_eq_false_iff_ne, hk]
        intro hc
        subst hc
        have hcontra : List.lookup k (msDelete rest k) = some v := h
        rw [msDelete_lookup_self] at hcontra
        exact Option.noConfusion hcontra]
      exact ih h

theorem Match.updateClock_matchId (m : Match) (now : ℤ) :
    (m.updateClock now).1.matchId = m.matchId := by
  unfold Match.updateClock
  dsimp only
  split
  all_goals split
  any_goals rfl
  all_goals split
  all_goals rfl

theorem Match.makeMove_matchId (oracle : Oracle) (m : Match) (mv : MoveInput)
    (now : ℤ) : (m.makeMove oracle mv now).1.matchId = m.matchId := by
  unfold Match.makeMove
  split
  · rfl
  · dsimp only
    split
    · exact Match.updateClock_matchId ..
    · split
      · exact Match.updateClock_matchId ..
      · exact Match.updateClock_matchId ..

/-- Matchmaking creates at most one match, keyed by the supplied fresh id,
and the stored id agrees with the key. -/
theorem matchPlayers_nm (fuel : ℕ) :
    ∀ (ps : PlayersMap) (qs : Queues) (mode : String) (fee : ℚ)
      (coin : Bool) (now : ℤ) (mid : String),
    (matchPlayers fuel ps qs mode fee coin now mid).nm = [] ∨
    ∃ m, (matchPlayers fuel ps qs mode fee coin now mid).nm = [(mid, m)] ∧
      m.matchId = mid := by
  induction fuel with
  | zero => intro ps qs mode fee coin now mid; exact Or.inl rfl
  | succ fuel ih =>
    intro ps qs mode fee coin now mid
    unfold matchPlayers
    split
    · exact Or.inl rfl
    · exact Or.inl rfl
    · rename_i p1Id p2Id rest hq
      split
      · exact ih ..
      · rename_i p1 hp1
        split
        · exact ih ..
        · rename_i p2 hp2
          split
          · exact ih ..
          · exact Or.inr ⟨_, rfl, rfl⟩

theorem registerPlayer_db (st : ServerState) (sock : String)
    (userId : Option String) (freshPid : String) :
    (registerPlayer st sock userId freshPid).1.db = st.db ∧
    (registerPlayer st sock userId freshPid).1.liveMatches = st.liveMatches :=
  ⟨rfl, rfl⟩

theorem disconnectHandler_db (st : ServerState) (sock : String) :
    (disconnectHandler st sock).1.db = st.db ∧
    (disconnectHandler st sock).1.liveMatches = st.liveMatches := by
  constructor <;> (unfold disconnectHandler; split <;> rfl)

theorem lookup_singleton_ne {β : Type} (k k' : String) (v : β)
    (h : k ≠ k') : List.lookup k [(k', v)] = none := by
  simp only [List.lookup]
  rw [show (k == k') = false from beq_eq_false_iff_ne.mpr h]

theorem lookup_singleton_some {β : Type} (k k' : String) (v v' : β)
    (h : List.lookup k [(k', v)] = some v') : k = k' ∧ v' = v := by
  simp only [List.lookup] at h
  cases hbeq : k == k' with
  | true =>
    rw [hbeq] at h
    exact ⟨beq_iff_eq.mp hbeq, (Option.some.inj h).symm⟩
  | false =>
    rw [hbeq] at h
    exact absurd h (by simp)

/-! ### Handler-level helper lemmas -/

/-- `make_move` on an unknown match id is a silent no-op. -/
theorem makeMoveHandler_no_match (oracle : Oracle) (st : ServerState)
    (sock mid : String) (mv : MoveInput) (now : ℤ)
    (h : st.liveMatches.lookup mid = none) :
    makeMoveHandler oracle st sock mid mv now = (st, []) := by
  simp only [makeMoveHandler, h]

/-- `make_move` with a move the oracle rejects reports `illegal_move` to the
sender and leaves the whole state untouched. -/
theorem makeMoveHandler_illegal (oracle : Oracle) (st : ServerState)
    (sock mid : String) (mv : MoveInput) (now : ℤ) (m : Match)
    (hm : st.liveMatches.lookup mid = some m) (ho : oracle m.fen mv = none) :
    makeMoveHandler oracle st sock mid mv now =
      (st, [Emit.illegalMove sock "Invalid move"]) := by
  simp only [makeMoveHandler, hm, Match.makeMove, ho, if_true]

/-- The post-state of `make_move` does not depend on which connection sent
the event: the handler never checks the submitting participant. -/
theorem makeMoveHandler_sender (oracle : Oracle) (st : ServerState)
    (s1 s2 mid : String) (mv : MoveInput) (now : ℤ) :
    (makeMoveHandler oracle st s1 mid mv now).1 =
    (makeMoveHandler oracle st s2 mid mv now).1 := by
  simp only [makeMoveHandler]
  split
  · rfl
  · split
    · rfl
    · split
      · rfl
      · rfl

/-- `join_queue` never issues a match-completion statement. -/
theorem joinQueue_settleCount (st : ServerState) (sock : String) (d : JoinData)
    (freshPid : String) (coin : Bool) (now : ℤ) (mid : String) (mid' : String) :
    settleCount (joinQueue st sock d freshPid coin now mid).1.db mid'
      = settleCount st.db mid' := by
  unfold joinQueue
  dsimp only
  split
  · rfl
  · split
    · rfl
    · split
      · show settleCount (st.db.applyAll _) mid' = _
        rw [settleCount_applyAll, matchPlayers_settle]
        omega
      · rfl


theorem lookup_append_some_left {β : Type} (l1 l2 : List (String × β))
    (k : String) (v : β) (h : l1.lookup k = some v) :
    (l1 ++ l2).lookup k = some v := by
  induction l1 with
  | nil => exact absurd h (by simp)
  | cons kv rest ih =>
    simp only [List.lookup, List.cons_append] at h ⊢
    cases hbeq : k == kv.1 with
    | true => rw [hbeq] at h; exact h
    | false => rw [hbeq] at h; exact ih h

/-- `join_queue` never changes the stored state of a different match id. -/
theorem joinQueue_lookup_other (st : ServerState) (sock : String) (d : JoinData)
    (freshPid : String) (coin : Bool) (now : ℤ) (mid : String) (mid' : String)
    (hne : mid' ≠ mid) :
    (joinQueue st sock d freshPid coin now mid).1.liveMatches.lookup mid'
      = st.liveMatches.lookup mid' := by
  unfold joinQueue
  dsimp only
  split
  · rfl
  · split
    · rfl
    · split
      · show (st.liveMatches ++ _).lookup mid' = _
        rcases matchPlayers_nm _ _ _ _ _ _ _ _ with hnm | ⟨m, hnm, _⟩
        · rw [hnm]
          cases hlk : st.liveMatches.lookup mid' with
          | none => rw [lookup_append_none _ _ _ hlk]; rfl
          | some v => exact lookup_append_some_left _ _ _ _ hlk
        · rw [hnm]
          cases hlk : st.liveMatches.lookup mid' with
          | none =>
            rw [lookup_append_none _ _ _ hlk]
            exact lookup_singleton_ne _ _ _ hne
          | some v => exact lookup_append_some_left _ _ _ _ hlk
      · rfl

/-- The first queue's count is bounded by the total count. -/
theorem qlookup_count_le_qTotal (qs : Queues) (mode pid : String) :
    (qlookup qs mode).count pid ≤ qTotal qs pid := by
  induction qs with
  | nil => simp [qlookup, qTotal_nil]
  | cons kv rest ih =>
    simp only [qlookup, List.lookup, qTotal_cons]
    cases hbeq : mode == kv.1 with
    | true => simp
    | false => exact le_trans ih (Nat.le_add_left _ _)

theorem qlookup_qsetFirst_other (qs : Queues) (mode mode' : String)
    (v : List String) (h : mode' ≠ mode) :
    qlookup (qsetFirst qs mode v) mode' = qlookup qs mode' := by
  induction qs with
  | nil =>
    simp only [qsetFirst, qlookup, List.lookup]
    rw [show (mode' == mode) = false from beq_eq_false_iff_ne.mpr h]
  | cons kv rest ih =>
    obtain ⟨k, q⟩ := kv
    unfold qsetFirst
    split
    · rename_i hk
      subst hk
      simp only [qlookup, List.lookup]
      rw [show (mode' == k) = false from beq_eq_false_iff_ne.mpr h]
    · simp only [qlookup, List.lookup]
      cases hbeq : mode' == k with
      | true => rfl
      | false => exact ih

/-- Matchmaking touches only its own mode's queue. -/
theorem matchPlayers_qlookup_other (fuel : ℕ) :
    ∀ (ps : PlayersMap) (qs : Queues) (mode : String) (fee : ℚ)
      (coin : Bool) (now : ℤ) (mid : String) (mode' : String), mode' ≠ mode →
    qlookup (matchPlayers fuel ps qs mode fee coin now mid).qs mode'
      = qlookup qs mode' := by
  induction fuel with
  | zero => intro ps qs mode fee coin now mid mode' h; rfl
  | succ fuel ih =>
    intro ps qs mode fee coin now mid mode' h
    unfold matchPlayers
    split
    · rfl
    · rfl
    · rename_i p1Id p2Id rest hq
      split
      · rw [ih _ _ _ _ _ _ _ _ h, qlookup_qsetFirst_other _ _ _ _ h]
      · rename_i p1 hp1
        split
        · rw [ih _ _ _ _ _ _ _ _ h, qlookup_qsetFirst_other _ _ _ _ h]
        · rename_i p2 hp2
          split
          · rw [ih _ _ _ _ _ _ _ _ h, qlookup_qsetFirst_other _ _ _ _ h]
          · exact qlookup_qsetFirst_other _ _ _ _ h

/-! ### Player-registry lemmas -/

theorem lookup_mem {β : Type} (l : List (String × β)) (k : String) (v : β)
    (h : l.lookup k = some v) : (k, v) ∈ l := by
  induction l with
  | nil => exact absurd h (by simp)
  | cons kv rest ih =>
    simp only [List.lookup] at h
    cases hbeq : k == kv.1 with
    | true =>
      rw [hbeq] at h
      have hk : k = kv.1 := beq_iff_eq.mp hbeq
      have hv : kv.2 = v := Option.some.inj h
      rw [show ((k, v) : String × β) = kv from by rw [hk, ← hv]]
      exact List.mem_cons_self ..
    | false =>
      rw [hbeq] at h
      exact List.mem_cons_of_mem _ (ih h)

theorem psetFirst_lookup_self (ps : PlayersMap) (k : String) (v : Player) :
    (psetFirst ps k v).lookup k = some v := by
  induction ps with
  | nil => simp [psetFirst, List.lookup]
  | cons kv rest ih =>
    unfold psetFirst
    split
    · simp [List.lookup]
    · rename_i hne
      simp only [List.lookup]
      rw [show (k == kv.1) = false from beq_eq_false_iff_ne.mpr
        (fun hc => hne (hc.symm))]
      exact ih

theorem psetFirst_lookup_other (ps : PlayersMap) (k k' : String) (v : Player)
    (h : k' ≠ k) : (psetFirst ps k v).lookup k' = ps.lookup k' := by
  induction ps with
  | nil =>
    simp only [psetFirst, List.lookup]
    rw [show (k' == k) = false from beq_eq_false_iff_ne.mpr h]
  | cons kv rest ih =>
    unfold psetFirst
    split
    · rename_i hk
      simp only [List.lookup]
      rw [show (k' == k) = false from beq_eq_false_iff_ne.mpr h,
        show (k' == kv.1) = false from beq_eq_false_iff_ne.mpr (hk ▸ h)]
    · simp only [List.lookup]
      cases hbeq : k' == kv.1 with
      | true => rfl
      | false => exact ih

/-- Keys of a filtered association list form a sublist of the original keys. -/
theorem filter_keys_sublist {β : Type} (l : List (String × β))
    (p : String × β → Bool) :
    ((l.filter p).map Prod.fst).Sublist (l.map Prod.fst) :=
  (List.filter_sublist l).map Prod.fst

theorem psetFirst_keys_subset (ps : PlayersMap) (k : String) (v : Player) :
    ∀ k', k' ∈ (psetFirst ps k v).map Prod.fst → k' = k ∨ k' ∈ ps.map Prod.fst := by
  induction ps with
  | nil => intro k' hk'; simp [psetFirst] at hk'; exact Or.inl hk'
  | cons kv2 rest2 ih2 =>
    intro k' hk'
    unfold psetFirst at hk'
    split at hk'
    · rename_i hk2
      simp only [List.map_cons, List.mem_cons] at hk'
      rcases hk' with h1 | h1
      · exact Or.inl h1
      · exact Or.inr (by simp [h1])
    · simp only [List.map_cons, List.mem_cons] at hk' ⊢
      rcases hk' with h1 | h1
      · exact Or.inr (Or.inl h1)
      · rcases ih2 k' h1 with h2 | h2
        · exact Or.inl h2
        · exact Or.inr (Or.inr h2)

theorem psetFirst_keys_nodup (ps : PlayersMap) (k : String) (v : Player)
    (h : (ps.map Prod.fst).Nodup) : ((psetFirst ps k v).map Prod.fst).Nodup := by
  induction ps with
  | nil => simp [psetFirst]
  | cons kv rest ih =>
    unfold psetFirst
    split
    · rename_i hk
      subst hk
      simpa using h
    · rename_i hne
      simp only [List.map_cons, List.nodup_cons] at h ⊢
      obtain ⟨hnm, hnd⟩ := h
      refine ⟨?_, ih hnd⟩
      intro hc
      rcases psetFirst_keys_subset rest k v kv.1 hc with h1 | h1
      · exact hne h1
      · exact hnm h1

/-- With unique keys, an entry failing the filter predicate disappears from
lookups. -/
theorem filter_lookup_none {β : Type} (l : List (String × β))
    (p : String × β → Bool) (k : String) (v : β)
    (hnd : (l.map Prod.fst).Nodup) (hl : l.lookup k = some v)
    (hp : p (k, v) = false) : (l.filter p).lookup k = none := by
  induction l with
  | nil => exact absurd hl (by simp)
  | cons kv rest ih =>
    simp only [List.map_cons, List.nodup_cons] at hnd
    obtain ⟨hnm, hnd⟩ := hnd
    simp only [List.lookup] at hl
    cases hbeq : k == kv.1 with
    | true =>
      rw [hbeq] at hl
      have hk : k = kv.1 := beq_iff_eq.mp hbeq
      have hv : kv.2 = v := Option.some.inj hl
      have hkv : kv = (k, v) := by
        rw [hk, ← hv]
      simp only [List.filter, hkv, hp]
      -- k does not occur among rest's keys, so the lookup misses entirely
      have : ∀ l2 : List (String × β), (∀ k2 ∈ l2.map Prod.fst, k2 ≠ k) →
          (l2.filter p).lookup k = none := by
        intro l2
        induction l2 with
        | nil => intro _; rfl
        | cons kv2 rest2 ih2 =>
          intro hall
          simp only [List.filter]
          split
          · simp only [List.lookup]
            rw [show (k == kv2.1) = false from beq_eq_false_iff_ne.mpr
              (fun hc => (hall kv2.1 (by simp)) hc.symm)]
            exact ih2 (fun k2 hk2 => hall k2 (by simp [hk2]))
          · exact ih2 (fun k2 hk2 => hall k2 (by simp [hk2]))
      refine this rest (fun k2 hk2 hc => ?_)
      rw [hc, hk] at hk2
      exact hnm hk2
    | false =>
      rw [hbeq] at hl
      simp only [List.filter]
      split
      · simp only [List.lookup]
        rw [hbeq]
        exact ih hnd hl
      · exact ih hnd hl

/-- An entry surviving a filtered lookup satisfied the predicate. -/
theorem filter_lookup_pred {β : Type} (l : List (String × β))
    (p : String × β → Bool) (k : String) (v : β)
    (h : (l.filter p).lookup k = some v) : p (k, v) = true := by
  induction l with
  | nil => exact absurd h (by simp)
  | cons kv rest ih =>
    simp only [List.filter] at h
    split at h
    · rename_i hp
      simp only [List.lookup] at h
      cases hbeq : k == kv.1 with
      | true =>
        rw [hbeq] at h
        have hk : k = kv.1 := beq_iff_eq.mp hbeq
        have hv : kv.2 = v := Option.some.inj h
        rw [show ((k, v) : String × β) = kv from by rw [hk, ← hv]]
        exact hp
      | false =>
        rw [hbeq] at h
        exact ih h
    · exact ih h

/-- Erasing each evicted player's id from all queues removes a listed
player's id entirely (given the single-membership bound). -/
theorem qTotal_foldl_erase_mem (l : List (String × Player)) (qs : Queues)
    (hq : ∀ pid, qTotal qs pid ≤ 1) (kv : String × Player) (hm : kv ∈ l) :
    qTotal (l.foldl (fun qs kv => eraseAllQ qs kv.2.playerId) qs)
      kv.2.playerId = 0 := by
  induction l generalizing qs with
  | nil => cases hm
  | cons a l ih =>
    cases hm with
    | head =>
      have h0 := qTotal_eraseAllQ_self qs kv.2.playerId (hq _)
      have hle := qTotal_foldl_erase_le l (eraseAllQ qs kv.2.playerId)
        kv.2.playerId
      simp only [List.foldl_cons]
      omega
    | tail _ hm' =>
      exact ih (eraseAllQ qs a.2.playerId)
        (fun pid => le_trans (qTotal_eraseAllQ_le ..) (hq pid)) hm'

theorem makeMoveHandler_players (oracle : Oracle) (st : ServerState)
    (sock mid : String) (mv : MoveInput) (now : ℤ) :
    (makeMoveHandler oracle st sock mid mv now).1.players = st.players := by
  simp only [makeMoveHandler]
  split
  · rfl
  · split
    · rfl
    · split
      · rfl
      · rfl

theorem matchPlayers_ps_nodup (fuel : ℕ) :
    ∀ (ps : PlayersMap) (qs : Queues) (mode : String) (fee : ℚ)
      (coin : Bool) (now : ℤ) (mid : String),
    (ps.map Prod.fst).Nodup →
    ((matchPlayers fuel ps qs mode fee coin now mid).ps.map Prod.fst).Nodup := by
  induction fuel with
  | zero => intro ps qs mode fee coin now mid h; exact h
  | succ fuel ih =>
    intro ps qs mode fee coin now mid h
    unfold matchPlayers
    split
    · exact h
    · exact h
    · rename_i p1Id p2Id rest hq
      split
      · exact ih _ _ _ _ _ _ _ h
      · rename_i p1 hp1
        split
        · exact ih _ _ _ _ _ _ _ h
        · rename_i p2 hp2
          split
          · exact ih _ _ _ _ _ _ _ h
          · exact psetFirst_keys_nodup _ _ _ (psetFirst_keys_nodup _ _ _ h)

/-- Registry keys (socket ids) stay pairwise distinct in every reachable
state. -/
theorem reachable_playersKeysNodup {oracle : Oracle} {bs : List (String × ℚ)}
    {st : ServerState} (h : Reachable oracle bs st) :
    (st.players.map Prod.fst).Nodup := by
  induction h with
  | init => simp [initState]
  | next e hr hf ih =>
    rename_i stp
    cases e with
    | register sock userId freshPid =>
      exact psetFirst_keys_nodup _ _ _
        ((filter_keys_sublist stp.players _).nodup ih)
    | join sock d freshPid coin now mid =>
      show ((joinQueue stp sock d freshPid coin now mid).1.players.map
        Prod.fst).Nodup
      have hps : ((if (stp.players.lookup sock).isSome = true then stp.players
          else psetFirst stp.players sock
            { playerId := freshPid, socketId := sock, dbId := d.userId,
              username := d.username.getD "Guest", color := none,
              gameMode := none, entryFee := none }).map Prod.fst).Nodup := by
        split
        · exact ih
        · exact psetFirst_keys_nodup _ _ _ ih
      unfold joinQueue
      dsimp only
      split
      · exact hps
      · split
        · exact hps
        · split
          · exact matchPlayers_ps_nodup _ _ _ _ _ _ _ _
              (psetFirst_keys_nodup _ _ _ hps)
          · exact psetFirst_keys_nodup _ _ _ hps
    | move sock mid mv now =>
      rw [show (step oracle stp (Ev.move sock mid mv now)).1.players = _ from
        makeMoveHandler_players ..]
      exact ih
    | disc sock =>
      show ((disconnectHandler stp sock).1.players.map Prod.fst).Nodup
      unfold disconnectHandler
      split
      · exact ih
      · exact (filter_keys_sublist _ _).nodup ih

theorem matchPlayers_created (fuel : ℕ) :
    ∀ (ps : PlayersMap) (qs : Queues) (mode : String) (fee : ℚ)
      (coin : Bool) (now : ℤ) (mid : String),
    MPGood fee mid (matchPlayers fuel ps qs mode fee coin now mid) := by
  induction fuel with
  | zero =>
    intro ps qs mode fee coin now mid m hm
    exact absurd hm (by simp [matchPlayers])
  | succ fuel ih =>
    intro ps qs mode fee coin now mid
    unfold MPGood matchPlayers
    split
    · intro m hm; exact absurd hm (by simp)
    · intro m hm; exact absurd hm (by simp)
    · rename_i p1Id p2Id rest hq
      split
      · exact ih _ _ _ _ _ _ _
      · rename_i p1 hp1
        split
        · exact ih _ _ _ _ _ _ _
        · rename_i p2 hp2
          split
          · exact ih _ _ _ _ _ _ _
          · intro m hm
            simp only [List.cons.injEq, Prod.mk.injEq, and_true, true_and] at hm
            subst hm
            refine ⟨rfl, ?_, ?_, ?_, ?_, ?_⟩
            · intro u a hmem
              cases coin <;> cases hd1 : p1.dbId <;> cases hd2 : p2.dbId <;>
                simp_all [mkMatch, List.mem_append, List.mem_cons] <;>
                (rcases hmem with ⟨h1, h2⟩ | ⟨h1, h2⟩ <;> simp [h1, h2])
            · intro u a ty hmem
              cases hd1 : p1.dbId <;> cases hd2 : p2.dbId <;>
                simp_all [List.mem_append, List.mem_cons] <;>
                (rcases hmem with ⟨h1, h2, h3⟩ | ⟨h1, h2, h3⟩ <;> simp [h2, h3])
            · cases hd1 : p1.dbId <;> cases hd2 : p2.dbId <;>
                simp [mkMatch, hd1, hd2, List.mem_append, List.mem_cons]
            · intro hw
              cases coin <;> cases hd1 : p1.dbId <;> cases hd2 : p2.dbId <;>
                simp_all [mkMatch, List.mem_append, List.mem_cons]
            · intro hb
              cases coin <;> cases hd1 : p1.dbId <;> cases hd2 : p2.dbId <;>
                simp_all [mkMatch, List.mem_append, List.mem_cons]

/-- After deduping and pushing onto the target mode, a participant is absent
from every other queue, and matchmaking keeps it that way. -/
theorem notin_after_push (qs : Queues) (pid mode mode' : String) (fuel : ℕ)
    (ps : PlayersMap) (fee : ℚ) (coin : Bool) (now : ℤ) (mid : String)
    (hq : qTotal qs pid ≤ 1) (hne : mode' ≠ mode) :
    pid ∉ qlookup (matchPlayers fuel ps (qpush (eraseAllQ qs pid) mode pid)
      mode fee coin now mid).qs mode' ∧
    pid ∉ qlookup (qpush (eraseAllQ qs pid) mode pid) mode' := by
  have h0 := qTotal_eraseAllQ_self qs pid hq
  have hn2 : pid ∉ qlookup (qpush (eraseAllQ qs pid) mode pid) mode' := by
    rw [qpush, qlookup_qsetFirst_other _ _ _ _ hne]
    have hle := qlookup_count_le_qTotal (eraseAllQ qs pid) mode' pid
    rw [h0] at hle
    exact List.count_eq_zero.mp (Nat.le_zero.mp hle)
  refine ⟨?_, hn2⟩
  rw [matchPlayers_qlookup_other _ _ _ _ _ _ _ _ _ hne]
  exact hn2

/-! ### Claim theorems -/

/-- C1 is false on the code: socket "sZ" is not registered at all (so it is
neither participant of match m1), white is to move, yet its make_move event
is accepted — the session's position mutates to the oracle's result and the
emissions are the two move_result broadcasts, with no NotYourTurn /
UnknownParticipant rejection of any kind. -/
theorem C1_counterexample :
    stA.players.lookup "sZ" = none ∧
    mA.turn = Side.white ∧
    startFen ≠ "FEN2" ∧
    ((makeMoveHandler oracleA stA "sZ" "m1" mv0 5000).1.liveMatches.lookup
      "m1").map Match.fen = some "FEN2" ∧
    (makeMoveHandler oracleA stA "sZ" "m1" mv0 5000).2 =
      [Emit.moveResult "s1" "FEN2" Side.black 180000 175000,
       Emit.moveResult "s2" "FEN2" Side.black 180000 175000] := by
  refine ⟨rfl, rfl, by decide, ?_, ?_⟩ <;> rfl

/-- C1 (amended): before consulting the rules oracle the make_move handler
checks only that the session exists — an unknown session id is silently
ignored — and an oracle-rejected move is answered with illegal_move and no
session mutation; the handler never checks which participant submitted the
move, so the post-state is independent of the sender and no NotYourTurn /
UnknownParticipant rejection exists. -/
theorem C1_amended (oracle : Oracle) (st : ServerState) (s1 s2 mid : String)
    (mv : MoveInput) (now : ℤ) :
    (makeMoveHandler oracle st s1 mid mv now).1 =
      (makeMoveHandler oracle st s2 mid mv now).1 ∧
    (st.liveMatches.lookup mid = none →
      makeMoveHandler oracle st s1 mid mv now = (st, [])) ∧
    (∀ m, st.liveMatches.lookup mid = some m → oracle m.fen mv = none →
      makeMoveHandler oracle st s1 mid mv now =
        (st, [Emit.illegalMove s1 "Invalid move"])) :=
  ⟨makeMoveHandler_sender oracle st s1 s2 mid mv now,
   fun h => makeMoveHandler_no_match oracle st s1 mid mv now h,
   fun m hm ho => makeMoveHandler_illegal oracle st s1 mid mv now m hm ho⟩

/-- Witness for C1_amended at concrete inputs: an unknown session id is
silently ignored and an oracle-rejected move is answered with illegal_move
only. -/
theorem C1_witness :
    makeMoveHandler oracleA stA "sZ" "badId" mv0 5000 = (stA, []) ∧
    makeMoveHandler oracle0 stA "sZ" "m1" mv0 5000 =
      (stA, [Emit.illegalMove "sZ" "Invalid move"]) :=
  ⟨(C1_amended oracleA stA "sZ" "s1" "badId" mv0 5000).2.1 rfl,
   (C1_amended oracle0 stA "sZ" "s1" "m1" mv0 5000).2.2 mA rfl rfl⟩

/-- C3 is right and the code is wrong: in `mA` white is to move and plays a
legal move after 5000 ms; `Match.makeMove` flips `turn` to black before
calling `updateClock`, so the 5000 ms of white's thinking time are deducted
from black's budget while white's budget is untouched. (A standalone
`updateClock` — the explicit timeout check — does charge the side to move,
as the last two conjuncts show.) -/
theorem C3_wrong_side_charged :
    mA.turn = Side.white ∧
    (mA.makeMove oracleA mv0 5000).2 = true ∧
    (mA.makeMove oracleA mv0 5000).1.clock.whiteMs = 180000 ∧
    (mA.makeMove oracleA mv0 5000).1.clock.blackMs = 175000 ∧
    (mA.updateClock 5000).1.clock.whiteMs = 175000 ∧
    (mA.updateClock 5000).1.clock.blackMs = 180000 := by
  refine ⟨rfl, rfl, ?_, ?_, ?_, ?_⟩ <;> decide

/-- C4 is false on the code: `stT` is reached from a fresh start by two
queue joins and holds one live BULLET session whose side to move has a
60000 ms budget last stamped at time 0. At wall-clock 10^9 ms — far past
exhaustion — processing a registration, another user's queue join and a
disconnect (with no move event for the session) leaves the session active
with no outcome and no timeout settlement: no periodic sweep exists. -/
theorem C4_counterexample :
    ((stT.liveMatches.lookup "m1").map Match.status = some MStatus.active) ∧
    (let st1 := (step oracle0 stT (Ev.register "s9" (some "u9") "p9")).1
     let st2 := (step oracle0 st1
       (Ev.join "s9" jd9 "p9b" true 1000000000 "m2")).1
     let st3 := (step oracle0 st2 (Ev.disc "s9")).1
     ((st3.liveMatches.lookup "m1").map Match.status = some MStatus.active) ∧
     ((st3.liveMatches.lookup "m1").map Match.result = some none) ∧
     settleCount st3.db "m1" = 0) := by
  refine ⟨rfl, rfl, rfl, rfl⟩

/-- C4 (amended): there is no periodic sweep. The server reacts only to the
four inbound events; register_player and disconnect never touch the live
session index or the store, join_queue never issues a match-completion
statement and never alters another session's entry, and make_move is a
silent no-op for an unknown session and mutates nothing when the oracle
rejects the move. An exhausted clock is therefore detected only when a
further legal move for that very session is processed. -/
theorem C4_amended (oracle : Oracle) (st : ServerState) :
    (∀ sock userId freshPid,
      (registerPlayer st sock userId freshPid).1.liveMatches = st.liveMatches ∧
      (registerPlayer st sock userId freshPid).1.db = st.db) ∧
    (∀ sock, (disconnectHandler st sock).1.liveMatches = st.liveMatches ∧
      (disconnectHandler st sock).1.db = st.db) ∧
    (∀ sock d freshPid coin now mid mid', mid' ≠ mid →
      (joinQueue st sock d freshPid coin now mid).1.liveMatches.lookup mid'
        = st.liveMatches.lookup mid' ∧
      settleCount (joinQueue st sock d freshPid coin now mid).1.db mid'
        = settleCount st.db mid') ∧
    (∀ sock mid mv now, st.liveMatches.lookup mid = none →
      makeMoveHandler oracle st sock mid mv now = (st, [])) ∧
    (∀ sock mid mv now m, st.liveMatches.lookup mid = some m →
      oracle m.fen mv = none →
      makeMoveHandler oracle st sock mid mv now =
        (st, [Emit.illegalMove sock "Invalid move"])) :=
  ⟨fun _ _ _ => ⟨rfl, rfl⟩,
   fun sock => ⟨(disconnectHandler_db st sock).2, (disconnectHandler_db st sock).1⟩,
   fun sock d freshPid coin now mid mid' hne =>
     ⟨joinQueue_lookup_other st sock d freshPid coin now mid mid' hne,
      joinQueue_settleCount st sock d freshPid coin now mid mid'⟩,
   fun sock mid mv now hn => makeMoveHandler_no_match oracle st sock mid mv now hn,
   fun sock mid mv now m hm ho =>
     makeMoveHandler_illegal oracle st sock mid mv now m hm ho⟩

/-- Witness for C4_amended at concrete inputs. -/
theorem C4_witness :
    (joinQueue stA "s1" jd1 "pX" true 0 "mY").1.liveMatches.lookup "m1"
      = stA.liveMatches.lookup "m1" ∧
    makeMoveHandler oracle0 stA "s1" "m1" mv0 0 =
      (stA, [Emit.illegalMove "s1" "Invalid move"]) :=
  ⟨((C4_amended oracle0 stA).2.2.1 "s1" jd1 "pX" true 0 "mY" "m1"
      (by decide)).1,
   (C4_amended oracle0 stA).2.2.2.2 "s1" "m1" mv0 0 mA rfl rfl⟩

/-- C5: for a settled session of stake S: a decisive outcome credits the
winner's wallet in exactly one update, of exactly 1.7×S, recorded by the
single "winnings" transaction of the run, and the single operator-earnings
record carries exactly 0.3×S and references the match; a draw (stake nonzero
and distinct accounts, as in every reachable session) credits each
identified side exactly once with exactly S, recorded as a refund
transaction. -/
theorem C5_settlement_amounts (ps : PlayersMap) (m : Match) (r : GameRes)
    (S : ℚ) (hres : m.result = some r) (hS : m.entryFee = S) :
    (∀ w, r.winner ≠ Winner.draw →
      (if r.winner = Winner.white then m.whiteDbId else m.blackDbId) = some w →
      ((handleGameOver ps m).1.countP isWalletAddOp = 1 ∧
       DbOp.walletAdd (some w) (17 / 10 * S) ∈ (handleGameOver ps m).1 ∧
       (handleGameOver ps m).1.countP isWinningsTx = 1 ∧
       DbOp.txInsert (some w) (17 / 10 * S) "winnings" ∈ (handleGameOver ps m).1 ∧
       (handleGameOver ps m).1.countP isCompanyOp = 1 ∧
       DbOp.companyEarning m.matchId (3 / 10 * S) ∈ (handleGameOver ps m).1)) ∧
    (r.winner = Winner.draw → r.reason = "draw" → S ≠ 0 →
      (∀ u, m.whiteDbId = some u →
        DbOp.walletAdd (some u) S ∈ (handleGameOver ps m).1 ∧
        DbOp.txInsert (some u) S "refund" ∈ (handleGameOver ps m).1 ∧
        (m.blackDbId ≠ some u →
          (handleGameOver ps m).1.countP (isWalletAddTo (some u)) = 1 ∧
          (handleGameOver ps m).1.countP (isRefundTxTo (some u)) = 1)) ∧
      (∀ u, m.blackDbId = some u →
        DbOp.walletAdd (some u) S ∈ (handleGameOver ps m).1 ∧
        DbOp.txInsert (some u) S "refund" ∈ (handleGameOver ps m).1 ∧
        (m.whiteDbId ≠ some u →
          (handleGameOver ps m).1.countP (isWalletAddTo (some u)) = 1 ∧
          (handleGameOver ps m).1.countP (isRefundTxTo (some u)) = 1))) := by
  subst hS
  constructor
  · intro w hnd hw
    unfold handleGameOver
    rw [hres]
    dsimp only
    rw [if_neg hnd]
    dsimp only
    rw [hw]
    have h17 : m.entryFee + m.entryFee * (7 / 10) = 17 / 10 * m.entryFee := by
      ring
    have h3 : m.entryFee * (3 / 10) = 3 / 10 * m.entryFee := by
      ring
    rw [h17, h3]
    refine ⟨?_, ?_, ?_, ?_, ?_, ?_⟩ <;>
      simp [isWalletAddOp, isWinningsTx, isCompanyOp, List.countP_cons]
  · intro hd hr hS0
    unfold handleGameOver
    rw [hres]
    dsimp only
    rw [if_pos hd, if_pos hr]
    dsimp only
    rw [if_neg hS0]
    constructor
    · intro u hu
      cases hb : m.blackDbId with
      | none =>
        refine ⟨?_, ?_, fun hbu => ⟨?_, ?_⟩⟩ <;>
          simp [hu, hb, isWalletAddTo, isRefundTxTo, List.countP_cons,
            List.countP_append]
      | some b =>
        refine ⟨?_, ?_, fun hbu => ?_⟩
        · simp [hu, hb]
        · simp [hu, hb]
        · have hbne : (some b == some u) = false := by
            rw [beq_eq_false_iff_ne]
            intro hc
            exact hbu hc
          constructor <;>
            simp [hu, hb, isWalletAddTo, isRefundTxTo, List.countP_cons,
              List.countP_append, hbne]
    · intro u hu
      cases hw : m.whiteDbId with
      | none =>
        refine ⟨?_, ?_, fun hwu => ⟨?_, ?_⟩⟩ <;>
          simp [hu, hw, isWalletAddTo, isRefundTxTo, List.countP_cons,
            List.countP_append]
      | some w =>
        refine ⟨?_, ?_, fun hwu => ?_⟩
        · simp [hu, hw]
        · simp [hu, hw]
        · have hwne : (some w == some u) = false := by
            rw [beq_eq_false_iff_ne]
            intro hc
            exact hwu hc
          constructor <;>
            simp [hu, hw, isWalletAddTo, isRefundTxTo, List.countP_cons,
              List.countP_append, hwne]

/-- Witness for C5 at a concrete checkmate and a concrete draw. -/
theorem C5_witness :
    (DbOp.walletAdd (some "u1") (17 / 10 * 10) ∈ (handleGameOver stA.players mC).1 ∧
     (handleGameOver stA.players mC).1.countP isWalletAddOp = 1 ∧
     DbOp.companyEarning "m1" (3 / 10 * 10) ∈ (handleGameOver stA.players mC).1) ∧
    (DbOp.walletAdd (some "u1") 10 ∈ (handleGameOver stA.players mD).1 ∧
     (handleGameOver stA.players mD).1.countP (isWalletAddTo (some "u1")) = 1) := by
  have hdec := (C5_settlement_amounts stA.players mC
    { winner := Winner.white, reason := "checkmate" } 10 rfl rfl).1 "u1"
    (by decide) rfl
  have hdrw := (C5_settlement_amounts stA.players mD
    { winner := Winner.draw, reason := "draw" } 10 rfl rfl).2 rfl rfl
    (by norm_num)
  exact ⟨⟨hdec.2.1, hdec.1, hdec.2.2.2.2.2⟩,
    ⟨(hdrw.1 "u1" rfl).1, ((hdrw.1 "u1" rfl).2.2 (by decide)).1⟩⟩

/-- C6: a join_queue event from a registered participant with a
persistent-account identity whose stored balance is below the effective
stake leaves the whole server state — every queue included — exactly as it
was and emits exactly one InsufficientBalance rejection carrying the
required and available amounts; in particular the participant is not
enqueued. -/
theorem C6_insufficient_balance (st : ServerState) (sock : String)
    (d : JoinData) (freshPid : String) (coin : Bool) (now : ℤ) (mid : String)
    (p : Player) (uid : String) (b : ℚ)
    (hp : st.players.lookup sock = some p) (hdb : p.dbId = some uid)
    (hbal : st.db.balances.lookup uid = some b)
    (hlt : b < feeOf d.entryFee) :
    joinQueue st sock d freshPid coin now mid =
      (st, [Emit.insufficientBalance sock (feeOf d.entryFee) b]) := by
  have hsome : (st.players.lookup sock).isSome = true := by rw [hp]; rfl
  unfold joinQueue
  dsimp only
  rw [if_pos hsome, hp]
  dsimp only
  rw [hdb]
  dsimp only
  rw [hbal]
  dsimp only
  rw [if_pos hlt]

/-- Witness for C6: u1 has 90 but requests a stake-200 queue. -/
theorem C6_witness :
    joinQueue stA "s1"
      { userId := none, gameMode := some "BULLET", entryFee := some 200,
        username := none } "pX" true 0 "mY" =
      (stA, [Emit.insufficientBalance "s1" (feeOf (some 200)) 90]) :=
  C6_insufficient_balance stA "s1" _ "pX" true 0 "mY" pW "u1" 90 rfl rfl rfl
    (by norm_num [feeOf])

/-- C8 is false on the code: `mD` ended in a draw and both sides'
connections are live in `stA`, yet settlement pushes no game_over at all
(while the refund statements are issued). -/
theorem C8_counterexample :
    mD.result = some { winner := Winner.draw, reason := "draw" } ∧
    findByPid stA.players "p1" = some pW ∧
    findByPid stA.players "p2" = some pB ∧
    (handleGameOver stA.players mD).2 = [] ∧
    (handleGameOver stA.players mD).1 ≠ [] := by
  refine ⟨rfl, rfl, rfl, rfl, by decide⟩

/-- C8 (amended): game_over is pushed only for decisive outcomes — the
winner's live connection receives the winnings amount and the combined
return, the loser's a zero-winnings acknowledgement, and a side that has
disconnected is simply skipped while the settlement statements are the same
whatever connections are live; on a draw no game_over is pushed at all. -/
theorem C8_amended (ps ps2 : PlayersMap) (m : Match) (r : GameRes)
    (hres : m.result = some r) :
    (r.winner = Winner.draw → (handleGameOver ps m).2 = []) ∧
    (∀ wp, r.winner ≠ Winner.draw →
      findByPid ps (if r.winner = Winner.white then m.whiteId else m.blackId)
        = some wp →
      Emit.gameOver wp.socketId r.winner r.reason (m.entryFee * (7 / 10))
        (some (m.entryFee + m.entryFee * (7 / 10))) ∈ (handleGameOver ps m).2) ∧
    (∀ lp, r.winner ≠ Winner.draw →
      findByPid ps (if r.winner = Winner.white then m.blackId else m.whiteId)
        = some lp →
      Emit.gameOver lp.socketId r.winner r.reason 0 none ∈ (handleGameOver ps m).2) ∧
    (handleGameOver ps m).1 = (handleGameOver ps2 m).1 := by
  refine ⟨?_, ?_, ?_, ?_⟩
  · intro hd
    unfold handleGameOver
    rw [hres]
    dsimp only
    rw [if_pos hd]
    split
    · rfl
    · rfl
  · intro wp hnd hwp
    unfold handleGameOver
    rw [hres]
    dsimp only
    rw [if_neg hnd]
    dsimp only
    rw [hwp]
    cases hlp : findByPid ps (if r.winner = Winner.white then m.blackId
        else m.whiteId) <;> simp
  · intro lp hnd hlp
    unfold handleGameOver
    rw [hres]
    dsimp only
    rw [if_neg hnd]
    dsimp only
    rw [hlp]
    cases hwp : findByPid ps (if r.winner = Winner.white then m.whiteId
        else m.blackId) <;> simp
  · unfold handleGameOver
    rw [hres]
    dsimp only
    split
    · split
      · rfl
      · rfl
    · rfl

/-- Witness for C8_amended: no push on the concrete draw; winner push with
winnings and combined return on the concrete checkmate. -/
theorem C8_witness :
    (handleGameOver stA.players mD).2 = [] ∧
    Emit.gameOver "s1" Winner.white "checkmate" (10 * (7 / 10))
      (some (10 + 10 * (7 / 10))) ∈ (handleGameOver stA.players mC).2 :=
  ⟨(C8_amended stA.players stA.players mD _ rfl).1 rfl,
   (C8_amended stA.players stA.players mC _ rfl).2.1 pW (by decide) rfl⟩

/-- C7: in every reachable state a participant id occurs at most once across
all mode queues system-wide; a queue join whose balance precondition holds
leaves the joining participant in no queue other than the target mode
(membership elsewhere is removed first); and a disconnect removes the
participant from every queue. -/
theorem C7_single_queue {oracle : Oracle} {bs : List (String × ℚ)}
    {st : ServerState} (h : Reachable oracle bs st) :
    (∀ pid, qTotal st.queues pid ≤ 1) ∧
    (∀ sock p, st.players.lookup sock = some p →
      qTotal (disconnectHandler st sock).1.queues p.playerId = 0) ∧
    (∀ sock p d freshPid coin now mid, st.players.lookup sock = some p →
      (∀ uid b, p.dbId = some uid → st.db.balances.lookup uid = some b →
        feeOf d.entryFee ≤ b) →
      ∀ mode', mode' ≠ modeOf d.gameMode →
        p.playerId ∉
          qlookup (joinQueue st sock d freshPid coin now mid).1.queues mode') := by
  have hinv := reachable_queueInv h
  refine ⟨hinv, ?_, ?_⟩
  · intro sock p hp
    unfold disconnectHandler
    rw [hp]
    dsimp only
    exact qTotal_eraseAllQ_self _ _ (hinv _)
  · intro sock p d freshPid coin now mid hp hbal mode' hne
    have hsome : (st.players.lookup sock).isSome = true := by rw [hp]; rfl
    unfold joinQueue
    dsimp only
    rw [if_pos hsome, hp]
    dsimp only
    cases hd : p.dbId with
    | none =>
      dsimp only
      split
      · exact (notin_after_push st.queues p.playerId _ _ _ _ _ _ _ _
          (hinv _) hne).1
      · exact (notin_after_push st.queues p.playerId _ _ 0 [] 0 true 0 ""
          (hinv _) hne).2
    | some uid =>
      dsimp only
      cases hb : st.db.balances.lookup uid with
      | none =>
        dsimp only
        split
        · exact (notin_after_push st.queues p.playerId _ _ _ _ _ _ _ _
            (hinv _) hne).1
        · exact (notin_after_push st.queues p.playerId _ _ 0 [] 0 true 0 ""
            (hinv _) hne).2
      | some b =>
        dsimp only
        rw [if_neg (not_lt.mpr (hbal uid b hd hb))]
        dsimp only
        split
        · exact (notin_after_push st.queues p.playerId _ _ _ _ _ _ _ _
            (hinv _) hne).1
        · exact (notin_after_push st.queues p.playerId _ _ 0 [] 0 true 0 ""
            (hinv _) hne).2

/-- Witness for C7 at the concrete one-player-queued reachable state. -/
theorem C7_witness :
    qTotal stQ.queues "p1" ≤ 1 ∧
    qTotal (disconnectHandler stQ "s1").1.queues "p1" = 0 ∧
    "p1" ∉ qlookup (joinQueue stQ "s1" jd2 "pX" true 0 "mY").1.queues "BLITZ" := by
  have hc := @C7_single_queue oracle0 [] stQ
    (Reachable.next (Ev.join "s1" jd1 "p1" true 0 "mX") Reachable.init
      ⟨rfl, rfl⟩)
  exact ⟨hc.1 "p1",
    hc.2.1 "s1" pJ rfl,
    hc.2.2 "s1" pJ jd2 "pX" true 0 "mY" rfl
      (fun uid b hu hb => Option.noConfusion hb)
      "BLITZ" (by decide)⟩

/-- C9: registering a connection under a non-absent persistent-account
identity evicts every older entry of a different connection holding that
identity: the old registry record is deleted, its playerId is removed from
every mode queue, its connection is sent force_disconnect, and afterwards
the registering connection is the sole registry entry for that identity. -/
theorem C9_eviction {oracle : Oracle} {bs : List (String × ℚ)}
    {st : ServerState} (h : Reachable oracle bs st)
    (sock sId uid freshPid : String) (p : Player)
    (hold : st.players.lookup sId = some p) (hdb : p.dbId = some uid)
    (hne : sId ≠ sock) :
    (registerPlayer st sock (some uid) freshPid).1.players.lookup sId = none ∧
    (∀ mode', p.playerId ∉
      qlookup (registerPlayer st sock (some uid) freshPid).1.queues mode') ∧
    Emit.forceDisconnect sId ∈ (registerPlayer st sock (some uid) freshPid).2 ∧
    (∀ s' q,
      (registerPlayer st sock (some uid) freshPid).1.players.lookup s'
        = some q → q.dbId = some uid → s' = sock) := by
  have hnd := reachable_playersKeysNodup h
  have hinv := reachable_queueInv h
  have hmem : (sId, p) ∈ st.players.filter
      (fun kv => kv.2.dbId == some uid && kv.1 != sock) := by
    rw [List.mem_filter]
    refine ⟨lookup_mem _ _ _ hold, ?_⟩
    rw [hdb]
    simp [hne]
  refine ⟨?_, ?_, ?_, ?_⟩
  · unfold registerPlayer
    dsimp only
    rw [psetFirst_lookup_other _ _ _ _ hne]
    refine filter_lookup_none _ _ _ _ hnd hold ?_
    rw [hdb]
    simp [hne]
  · intro mode'
    unfold registerPlayer
    dsimp only
    have h0 := qTotal_foldl_erase_mem
      (st.players.filter (fun kv => kv.2.dbId == some uid && kv.1 != sock))
      st.queues hinv (sId, p) hmem
    intro hmem2
    have hle := qlookup_count_le_qTotal
      ((st.players.filter (fun kv => kv.2.dbId == some uid && kv.1 != sock)).foldl
        (fun qs kv => eraseAllQ qs kv.2.playerId) st.queues) mode' p.playerId
    rw [h0] at hle
    exact (List.count_eq_zero.mp (Nat.le_zero.mp hle)) hmem2
  · unfold registerPlayer
    dsimp only
    exact List.mem_map_of_mem _ hmem
  · intro s' q hlk hq
    by_cases hs : s' = sock
    · exact hs
    · exfalso
      unfold registerPlayer at hlk
      dsimp only at hlk
      rw [psetFirst_lookup_other _ _ _ _ hs] at hlk
      have hpred := filter_lookup_pred _ _ _ _ hlk
      simp only [Bool.not_eq_true'] at hpred
      rw [hq] at hpred
      simp [hs] at hpred

/-- Witness for C9 at the concrete reachable state `stQ`: the queued first
connection of u1 is evicted when u1 registers from socket s2. -/
theorem C9_witness :
    (registerPlayer stQ "s2" (some "u1") "p2").1.players.lookup "s1" = none ∧
    "p1" ∉ qlookup (registerPlayer stQ "s2" (some "u1") "p2").1.queues "BULLET" ∧
    Emit.forceDisconnect "s1" ∈ (registerPlayer stQ "s2" (some "u1") "p2").2 := by
  have hc := @C9_eviction oracle0 [] stQ
    (Reachable.next (Ev.join "s1" jd1 "p1" true 0 "mX") Reachable.init
      ⟨rfl, rfl⟩) "s2" "s1" "u1" "p2" pJ rfl rfl (by decide)
  exact ⟨hc.1, hc.2.1 "BULLET", hc.2.2.1⟩

/-- C10: every debit and every entry-fee transaction of a successful pairing
carries exactly the fee value `matchPlayers` was invoked with — the entry
fee of the join event that triggered the pairing — and that value is stored
as the match's entry fee and in the match record; the debited accounts are
exactly the two sides' accounts. Concretely, u1 joined with stake 5 and its
balance of 6 was checked against 5, yet the pairing triggered by u2's later
join with stake 20 debits both sides 20, stores 20 as the match's fee, and
drives u1's balance to -14. -/
theorem C10_fee_from_trigger :
    (∀ fuel ps qs mode fee coin now mid,
      MPGood fee mid (matchPlayers fuel ps qs mode fee coin now mid)) ∧
    (((stP.players.lookup "s1").map Player.entryFee = some (some 5)) ∧
     stP.db.balances.lookup "u1" = some 6 ∧
     DbOp.walletSub (some "u1") 20 ∈ stP2.db.ops ∧
     DbOp.walletSub (some "u2") 20 ∈ stP2.db.ops ∧
     DbOp.txInsert (some "u1") 20 "entry_fee" ∈ stP2.db.ops ∧
     DbOp.txInsert (some "u2") 20 "entry_fee" ∈ stP2.db.ops ∧
     DbOp.matchInsert "m1" (some "u1") (some "u2") 20 20 ∈ stP2.db.ops ∧
     (stP2.liveMatches.lookup "m1").map Match.entryFee = some 20 ∧
     stP2.db.balances.lookup "u1" = some (6 - 20) ∧
     (6 - 20 : ℚ) = -14) := by
  refine ⟨fun fuel ps qs mode fee coin now mid =>
    matchPlayers_created fuel ps qs mode fee coin now mid, ?_⟩
  refine ⟨rfl, rfl, ?_, ?_, ?_, ?_, ?_, rfl, rfl, by norm_num⟩ <;> decide

/-- Witness for C10's universal part at a concrete two-player pairing. -/
theorem C10_witness :
    (mkMatch "m1" "p1" "p2" (some "u1") (some "u2") "BULLET" 20 0).entryFee
      = 20 ∧
    DbOp.walletSub (some "u1") 20 ∈
      (matchPlayers 2 psC qsC "BULLET" 20 true 0 "m1").ops := by
  have hg := C10_fee_from_trigger.1 2 psC qsC "BULLET" 20 true 0 "m1"
    (mkMatch "m1" "p1" "p2" (some "u1") (some "u2") "BULLET" 20 0) rfl
  exact ⟨hg.1, hg.2.2.2.2.1 rfl⟩

end Chess3
